import Mathlib

/-!
Verification of the feather-sonos protocol/parsing core.

This file gives a shallow embedding of the Python source files
`discovery.py` and `sonos.py` (the token-level topology extractor, the
Location-to-address extraction, the discovery polling loop, and the track
metadata extractor), and proves properties of those embeddings.

Strings are modelled as `List Char` (`Str`), so that the character-level
slicing done by `_zone_group_topology_location_to_ip` can be reasoned about
directly.  The XML token source (the external `xmltok` dependency) is
modelled by the token type `Tok`: the topology and metadata extractors only
consume its four token categories (start-tag, end-tag, attribute, text),
each tag name being a (namespace, localname) pair as `xmltok` produces.

Python exceptions are modelled as `Except` errors.  In the topology and
metadata extractors every escaping exception (an uncaught `StopIteration`
on stream exhaustion, or a failing `assert`) is what the specification
calls a `MalformedTopology` / `MalformedMetadata` error; the error types
`PErr` and `MErr` record which mechanism fired.
-/

/-- Characters of a Python (byte/unicode) string. -/
abbrev Str := List Char

/-- `hasPfx l p` is Python's `l.startswith(p)`. -/
def hasPfx : Str → Str → Bool
  | _, [] => true
  | [], _ :: _ => false
  | c :: cs, p :: ps => c = p && hasPfx cs ps

/-- Python's `str.find(':')`: index of the first colon, or `-1` if none. -/
def pyFindColon : Str → Int
  | [] => -1
  | c :: rest =>
    if c = ':' then 0
    else
      let r := pyFindColon rest
      if r < 0 then -1 else r + 1

/-- Python's slice `l[:i]`, for the index values `str.find` can produce:
a non-negative `i` takes the first `i` characters, a negative `i` counts
from the end (clamped at zero, as Python does). -/
def pySliceTo (l : Str) (i : Int) : Str :=
  if i < 0 then l.take (l.length - (-i).toNat) else l.take i.toNat

/-- Errors escaping `query_zone_group_topology` (the specification's
`MalformedTopology` taxonomy): `truncated` is an uncaught `StopIteration`
(the token stream ended inside a required scan), `badLocation` is the
failing `assert location.startswith(scheme_prefix)`. -/
inductive PErr
  | truncated
  | badLocation
deriving DecidableEq, Repr

/-- The scheme marker `'http://'` of `_zone_group_topology_location_to_ip`. -/
def schemePfx : Str := "http://".toList

/-- Embedding of `discovery._zone_group_topology_location_to_ip`:
assert the `http://` scheme, drop it, and slice up to the first colon. -/
def _zone_group_topology_location_to_ip (location : Str) : Except PErr Str :=
  if hasPfx location schemePfx then
    let rest := location.drop schemePfx.length
    .ok (pySliceTo rest (pyFindColon rest))
  else
    .error .badLocation

/-! ## XML tokens (the `xmltok` contract) -/

/-- The four token categories the extractors consume.  Tag and attribute
names are (namespace-prefix, localname) pairs, exactly as `xmltok` yields
them (`('', 'ZoneGroup')`, `('dc', 'title')`, ...). -/
inductive Tok
  | startTag (ns nm : Str)
  | endTag (ns nm : Str)
  | attr (ns nm val : Str)
  | text (v : Str)
deriving DecidableEq, Repr

/-- `<ZoneGroup>` start-tag token. -/
def zgS : Tok := .startTag [] "ZoneGroup".toList
/-- `</ZoneGroup>` end-tag token. -/
def zgE : Tok := .endTag [] "ZoneGroup".toList
/-- `<ZoneGroupMember` start-tag token. -/
def zgmS : Tok := .startTag [] "ZoneGroupMember".toList
/-- `Coordinator=` attribute token. -/
def coordA (v : Str) : Tok := .attr [] "Coordinator".toList v
/-- `UUID=` attribute token. -/
def uuidA (v : Str) : Tok := .attr [] "UUID".toList v
/-- `ZoneName=` attribute token. -/
def znameA (v : Str) : Tok := .attr [] "ZoneName".toList v
/-- `Location=` attribute token. -/
def locA (v : Str) : Tok := .attr [] "Location".toList v

/-! ## The topology extractor (`discovery.query_zone_group_topology`) -/

/-- One member record, `dict(uuid=..., name=..., ip=...)`. -/
structure Player where
  uuid : Str
  name : Str
  ip : Str
deriving DecidableEq, Repr

/-- One group record, `dict(coordinator_uuid=..., players=...)`; the
`players` dict is modelled as an insertion-ordered association list. -/
structure ZGroup where
  coordinator_uuid : Str
  players : List (Str × Player)
deriving DecidableEq, Repr

/-- Python dict assignment `d[k] = v`: replace in place if the key exists,
else append at the end. -/
def dictInsert : List (Str × Player) → Str → Player → List (Str × Player)
  | [], k, v => [(k, v)]
  | (k', v') :: rest, k, v =>
    if k' = k then (k, v) :: rest else (k', v') :: dictInsert rest k v

/-- Python truthiness of the `player_uuid` / `player_name` / `player_ip`
variables: `None` and the empty string are falsy. -/
def truthy : Option Str → Bool
  | none => false
  | some s => !s.isEmpty

/-- Control state of `query_zone_group_topology`, naming which of its
nested `while` loops is about to examine the current token:
seeking `<ZoneGroup>` (lines 128-132), seeking the `Coordinator=`
attribute (lines 134-136), scanning for members or `</ZoneGroup>`
(lines 139-142), or collecting one member's attributes (lines 146-156). -/
inductive PState
  | seekGroup
  | seekCoord
  | scanMembers (coord : Str) (players : List (Str × Player))
  | memberAttrs (coord : Str) (players : List (Str × Player))
      (uuid zname ip : Option Str)
deriving DecidableEq, Repr

/-- Loop-exit chaining for `seekCoord`: when the current token is the
`Coordinator=` attribute, the source takes its value, starts an empty
players dict, and falls into the member scan with the same current token
(an attribute, hence not `</ZoneGroup>`, so that loop is about to fetch). -/
def stabSC (cur : Tok) : PState :=
  match cur with
  | .attr ns nm v =>
    if ns = [] ∧ nm = "Coordinator".toList then .scanMembers v [] else .seekCoord
  | _ => .seekCoord

/-- Loop-exit chaining for `seekGroup`: on `<ZoneGroup>` the source falls
into the coordinator scan with the same current token (a start-tag, not an
attribute, so that loop is about to fetch). -/
def stabSG (cur : Tok) : PState :=
  if cur = zgS then .seekCoord else .seekGroup

/-- Loop-exit chaining for the member scan: on `</ZoneGroup>` the source
appends the finished group and returns to seeking the next `<ZoneGroup>`
with the same current token (an end-tag, so that loop is about to fetch). -/
def stabSM (c : Str) (ps : List (Str × Player)) (acc : List ZGroup) (cur : Tok) :
    PState × List ZGroup :=
  if cur = zgE then (.seekGroup, acc ++ [⟨c, ps⟩]) else (.scanMembers c ps, acc)

/-- Loop-exit chaining for the member-attribute loop: once all three
required values are truthy (`while not all((player_uuid, player_name,
player_ip))`), the source stores the member and falls back into the member
scan with the same current token. -/
def stabMA (c : Str) (ps : List (Str × Player)) (u n i : Option Str)
    (acc : List ZGroup) (cur : Tok) : PState × List ZGroup :=
  if truthy u && truthy n && truthy i then
    stabSM c (dictInsert ps (u.getD []) ⟨u.getD [], n.getD [], i.getD []⟩) acc cur
  else (.memberAttrs c ps u n i, acc)

/-- Apply every loop-exit transition that fires on the current token
without consuming any further token; the result is the loop that will
actually fetch next (or, for `seekGroup`, terminate on exhaustion). -/
def stabilize : PState → Tok → List ZGroup → PState × List ZGroup
  | .seekGroup, cur, acc => (stabSG cur, acc)
  | .seekCoord, cur, acc => (stabSC cur, acc)
  | .scanMembers c ps, cur, acc => stabSM c ps acc cur
  | .memberAttrs c ps u n i, cur, acc => stabMA c ps u n i acc cur

/-- The token-consuming loop of `query_zone_group_topology`.  `cur` is the
token most recently read (`token, value, *rest`), `ts` the unread stream.
On exhaustion, only the `<ZoneGroup>` seek loop catches `StopIteration`
(lines 128-132) and returns the accumulated groups; exhaustion in any
other loop escapes as an error.  Each consumed attribute token updates the
member-attribute state; a `Location=` attribute goes through
`_zone_group_topology_location_to_ip`, whose failure propagates. -/
def loop : Tok → List Tok → PState → List ZGroup → Except PErr (List ZGroup)
  | cur, ts, st, acc =>
    match stabilize st cur acc with
    | (st', acc') =>
      match ts with
      | [] =>
        match st' with
        | .seekGroup => .ok acc'
        | _ => .error .truncated
      | t :: ts' =>
        match st' with
        | .seekGroup => loop t ts' .seekGroup acc'
        | .seekCoord => loop t ts' .seekCoord acc'
        | .scanMembers c ps =>
          if t = zgmS then loop t ts' (.memberAttrs c ps none none none) acc'
          else loop t ts' (.scanMembers c ps) acc'
        | .memberAttrs c ps u n i =>
          match t with
          | .attr ans anm v =>
            if ans = [] ∧ anm = "UUID".toList then
              loop t ts' (.memberAttrs c ps (some v) n i) acc'
            else if ans = [] ∧ anm = "ZoneName".toList then
              loop t ts' (.memberAttrs c ps u (some v) i) acc'
            else if ans = [] ∧ anm = "Location".toList then
              match _zone_group_topology_location_to_ip v with
              | .ok pip => loop t ts' (.memberAttrs c ps u n (some pip)) acc'
              | .error e => .error e
            else loop t ts' (.memberAttrs c ps u n i) acc'
          | _ => loop t ts' (.memberAttrs c ps u n i) acc'

/-- Embedding of `discovery.query_zone_group_topology`, from the point
where the serialized `ZoneGroupState` document has been tokenized: the
initial `next(tokens)` (line 124) is outside every `try`, so an empty
stream escapes as an error; otherwise the nested scanning loops run. -/
def query_zone_group_topology : List Tok → Except PErr (List ZGroup)
  | [] => .error .truncated
  | t :: ts => loop t ts .seekGroup []

/-! ## Discovery (`discovery._discover_ip` / `discover`) -/

/-- `errno.ETIMEDOUT` (the MicroPython "no data yet" code). -/
def ETIMEDOUT : Nat := 110
/-- `errno.EAGAIN` (the CPython "no data yet" code). -/
def EAGAIN : Nat := 11

/-- The vendor marker `b'Sonos'` looked for in discovery responses. -/
def sonosMarker : Str := "Sonos".toList

/-- Python's substring test `needle in data`, specialised to the marker. -/
def containsMarker : Str → Bool
  | [] => false
  | c :: rest => hasPfx (c :: rest) sonosMarker || containsMarker rest

/-- Outcome of one `sock.recvfrom` attempt: a datagram with its sender's
IP (the port is ignored by the source), or an `OSError` with an errno. -/
inductive RecvOutcome
  | recv (data : Str) (ip : Str)
  | err (code : Nat)
deriving DecidableEq, Repr

/-- One iteration of the polling loop: the wall-clock reading of that
iteration's `time.time()` check, and the receive attempt's outcome. -/
structure PollEvent where
  time : Nat
  outcome : RecvOutcome
deriving DecidableEq, Repr

/-- Errors of the discovery phase: `osError` is an `OSError` re-raised by
the polling loop (line 49), `assertionError` is the failing
`assert ip is not None` in `discover` (line 63).  `discoveryTimeout` is
the specification's typed error; the source never produces it, and the
constructor exists only so statements can compare against it. -/
inductive DiscErr
  | osError (code : Nat)
  | assertionError
  | discoveryTimeout
deriving DecidableEq, Repr

/-- Embedding of the polling loop of `discovery._discover_ip`
(lines 41-53), driven by the sequence of poll iterations the environment
supplies.  Each iteration first compares the clock against the deadline
(returning `none` — Python falls off the loop and the function returns
`None`); then a "no data yet" errno (`ETIMEDOUT`/`EAGAIN`) is swallowed
and the loop retries, any other errno is re-raised, and a datagram is
accepted exactly when it contains the vendor marker.  An exhausted event
list models the clock having reached the deadline. -/
def discoverLoop (endTime : Nat) : List PollEvent → Except DiscErr (Option Str)
  | [] => .ok none
  | ev :: rest =>
    if endTime ≤ ev.time then .ok none
    else
      match ev.outcome with
      | .err c =>
        if c = ETIMEDOUT ∨ c = EAGAIN then discoverLoop endTime rest
        else .error (.osError c)
      | .recv data ip =>
        if containsMarker data then .ok (some ip) else discoverLoop endTime rest

/-- Embedding of the IP-resolution prefix of `discovery.discover`
(lines 62-63): run `_discover_ip` with deadline `start_time + timeout`,
then `assert ip is not None` — a `None` result escapes as an
`AssertionError`.  (On success the source goes on to query the topology;
that continuation is independent of this phase.) -/
def discoverResolveIp (startTime timeout : Nat) (events : List PollEvent) :
    Except DiscErr Str :=
  match discoverLoop (startTime + timeout) events with
  | .error e => .error e
  | .ok none => .error .assertionError
  | .ok (some ip) => .ok ip

/-! ## The track metadata extractor (`sonos.TrackInfo`) -/

/-- Errors escaping `TrackInfo._parse_metadata` (the specification's
`MalformedMetadata` taxonomy): `truncated` is an uncaught `StopIteration`
(line 34 or line 41), `assertionError` the failing
`assert token == xmltok.TEXT` (line 42). -/
inductive MErr
  | truncated
  | assertionError
deriving DecidableEq, Repr

/-- The field a metadata start-tag is mapped to by `tags_of_interest`. -/
inductive MField
  | artist
  | album
  | title
deriving DecidableEq, Repr

/-- `tags_of_interest.get(value)`: `dc:creator` feeds the artist,
`upnp:album` the album, `dc:title` the title; anything else is `None`.
The lookup only fires on start-tags (line 36). -/
def tagField : Tok → Option MField
  | .startTag ns nm =>
    if ns = "dc".toList ∧ nm = "creator".toList then some .artist
    else if ns = "upnp".toList ∧ nm = "album".toList then some .album
    else if ns = "dc".toList ∧ nm = "title".toList then some .title
    else none
  | _ => none

/-- The dynamically-set attributes of a `TrackInfo` under construction:
`None` models the attribute never having been `setattr`-ed. -/
structure MFields where
  artist : Option Str
  album : Option Str
  title : Option Str
deriving DecidableEq, Repr

/-- `setattr(self, attrib, value)` for the three fields of interest. -/
def setField (f : MFields) : MField → Str → MFields
  | .artist, v => { f with artist := some v }
  | .album, v => { f with album := some v }
  | .title, v => { f with title := some v }

/-- The scanning loop of `TrackInfo._parse_metadata` (lines 35-47).
`cur` is the token just read.  A recognized start-tag consumes the
immediately following token, which must be a text token (any other kind
fails the assert; exhaustion there is an uncaught `StopIteration`); the
text becomes the field's value.  In every case the loop then fetches the
next token inside `try`, so exhaustion at the bottom is the normal exit. -/
def parseMetadataLoop : Tok → List Tok → MFields → Except MErr MFields
  | cur, ts, f =>
    match tagField cur with
    | some fld =>
      match ts with
      | [] => .error .truncated
      | t :: ts' =>
        match t with
        | .text v =>
          match ts' with
          | [] => .ok (setField f fld v)
          | t2 :: ts2 => parseMetadataLoop t2 ts2 (setField f fld v)
        | _ => .error .assertionError
    | none =>
      match ts with
      | [] => .ok f
      | t :: ts' => parseMetadataLoop t ts' f

/-- Embedding of `TrackInfo._parse_metadata` from the point where the
DIDL-Lite fragment has been tokenized: the initial `next(tokens)`
(line 34) is outside every `try`, so an empty stream escapes. -/
def parse_metadata : List Tok → Except MErr MFields
  | [] => .error .truncated
  | t :: ts => parseMetadataLoop t ts ⟨none, none, none⟩

/-- A constructed `TrackInfo`: the three metadata attributes (absent when
never set) and the two opaque duration strings stored by `__init__`. -/
structure TrackInfo where
  artist : Option Str
  album : Option Str
  title : Option Str
  total_time : Str
  current_time : Str
deriving DecidableEq, Repr

/-- Embedding of `TrackInfo.__init__(metadata, total_time, current_time)`:
store the two duration strings verbatim and parse the metadata fragment. -/
def TrackInfo.make (metadata : List Tok) (total current : Str) :
    Except MErr TrackInfo :=
  (parse_metadata metadata).map fun f =>
    ⟨f.artist, f.album, f.title, total, current⟩

/-! ## Well-formed topology documents and their serialization

The following definitions are the statement-side vocabulary for the
claims that quantify over well-formed topology documents: an abstract
document (groups, each with a coordinator UUID and member elements) and
its canonical token serialization, exactly the shape described for the
`ZoneGroupState` payload: `<ZoneGroup Coordinator="...">` elements
containing self-closing
`<ZoneGroupMember UUID="..." ZoneName="..." Location="http://ip:port/...">`
elements. -/

/-- One `<ZoneGroupMember .../>` element: its UUID, zone name, and the
host and colon-separated remainder of its `Location` URL. -/
structure MemberDoc where
  uuid : Str
  zname : Str
  host : Str
  rest : Str
deriving DecidableEq, Repr

/-- The member's `Location` attribute value, `http://host:rest`. -/
def MemberDoc.location (m : MemberDoc) : Str :=
  schemePfx ++ m.host ++ ':' :: m.rest

/-- The attribute tokens of one member element, in canonical order. -/
def serMemberAttrs (m : MemberDoc) : List Tok :=
  [uuidA m.uuid, znameA m.zname, locA m.location]

/-- The token serialization of one self-closing member element (no
end-tag token is ever produced for it, as the source's comment notes). -/
def serMember (m : MemberDoc) : List Tok :=
  zgmS :: serMemberAttrs m

/-- One `<ZoneGroup Coordinator="...">...</ZoneGroup>` element. -/
structure GroupDoc where
  coordinator : Str
  members : List MemberDoc
deriving DecidableEq, Repr

/-- The tokens of a group after its start-tag. -/
def serGroupTail (g : GroupDoc) : List Tok :=
  coordA g.coordinator :: (g.members.flatMap serMember ++ [zgE])

/-- The token serialization of one group element. -/
def serGroup (g : GroupDoc) : List Tok :=
  zgS :: serGroupTail g

/-- The token serialization of a whole topology document: the enclosing
`<ZoneGroups>` element around the groups. -/
def serTopology (gs : List GroupDoc) : List Tok :=
  .startTag [] "ZoneGroups".toList ::
    (gs.flatMap serGroup ++ [.endTag [] "ZoneGroups".toList])

/-- A well-formed member element: all three required attribute values
non-empty (the source's `all(...)` check needs them truthy) and a
colon-free host, as in a real `http://ip:port/...` location. -/
def WfMember (m : MemberDoc) : Prop :=
  m.uuid ≠ [] ∧ m.zname ≠ [] ∧ m.host ≠ [] ∧ ':' ∉ m.host

instance : DecidablePred WfMember := fun m => by
  unfold WfMember; infer_instance

/-- A well-formed group element: well-formed members with pairwise
distinct UUIDs, and a `Coordinator` attribute naming one of them (devices
carry unique UUIDs and a group's coordinator is one of its members). -/
def WfGroup (g : GroupDoc) : Prop :=
  (∀ m ∈ g.members, WfMember m) ∧
    (g.members.map MemberDoc.uuid).Nodup ∧
    g.coordinator ∈ g.members.map MemberDoc.uuid

instance : DecidablePred WfGroup := fun g => by
  unfold WfGroup; infer_instance

/-- A well-formed topology document: every group well-formed. -/
def WfTopology (gs : List GroupDoc) : Prop :=
  ∀ g ∈ gs, WfGroup g

instance : DecidablePred WfTopology := fun gs => by
  unfold WfTopology; infer_instance

/-- The player record the extractor builds for a member element. -/
def playerOf (m : MemberDoc) : Player :=
  ⟨m.uuid, m.zname, m.host⟩

/-- The players-dict entry for a member element. -/
def pairOf (m : MemberDoc) : Str × Player :=
  (m.uuid, playerOf m)

/-- The group record the extractor builds for a well-formed group. -/
def groupOf (g : GroupDoc) : ZGroup :=
  ⟨g.coordinator, g.members.map pairOf⟩

/-- Fold the extractor's dict insertions over a member list. -/
def insertAll (ps : List (Str × Player)) (ms : List MemberDoc) :
    List (Str × Player) :=
  ms.foldl (fun ps m => dictInsert ps m.uuid (playerOf m)) ps

/-- Number of `<ZoneGroupMember` start-tag tokens in a stream. -/
def countMemberTags (ts : List Tok) : Nat :=
  ts.countP (fun t => t = zgmS)

/-- `Closed ts`: every `<ZoneGroup>` start-tag in `ts` is followed,
strictly later in the stream, by some `</ZoneGroup>` end-tag.  A stream
that ends mid-group (a group opened but never closed) violates this. -/
def Closed : List Tok → Prop
  | [] => True
  | t :: ts => (t = zgS → zgE ∈ ts) ∧ Closed ts

/-- The six orders in which a well-formed member element's three
attribute tokens can appear (every permutation of the canonical order). -/
def attrPerms (m : MemberDoc) : List (List Tok) :=
  [[uuidA m.uuid, znameA m.zname, locA m.location],
   [uuidA m.uuid, locA m.location, znameA m.zname],
   [znameA m.zname, uuidA m.uuid, locA m.location],
   [znameA m.zname, locA m.location, uuidA m.uuid],
   [locA m.location, uuidA m.uuid, znameA m.zname],
   [locA m.location, znameA m.zname, uuidA m.uuid]]

/-- Metadata token streams satisfying `_parse_metadata`'s structural
assumption: every recognized start-tag is immediately followed by a text
token.  Tokens the parser does not recognize are unconstrained. -/
inductive OkShape : List Tok → Prop
  | nil : OkShape []
  | hit {t : Tok} {fld : MField} {v : Str} {ts : List Tok} :
      tagField t = some fld → OkShape ts → OkShape (t :: .text v :: ts)
  | skip {t : Tok} {ts : List Tok} :
      tagField t = none → OkShape ts → OkShape (t :: ts)

/-! ## Properties of the Location-to-address extraction -/

theorem hasPfx_iff (l p : Str) : hasPfx l p = true ↔ p <+: l := by
  induction p generalizing l with
  | nil => simp [hasPfx]
  | cons c cs ih =>
    cases l with
    | nil => simp [hasPfx]
    | cons a as =>
      simp only [hasPfx, Bool.and_eq_true, decide_eq_true_eq, ih]
      constructor
      · rintro ⟨rfl, t, rfl⟩
        exact ⟨t, rfl⟩
      · rintro ⟨t, h⟩
        cases h
        exact ⟨rfl, t, rfl⟩

theorem pyFindColon_no_colon (l : Str) (h : ':' ∉ l) : pyFindColon l = -1 := by
  induction l with
  | nil => rfl
  | cons c rest ih =>
    simp only [List.mem_cons, not_or] at h
    simp only [pyFindColon, if_neg (Ne.symm h.1), ih h.2]
    rfl

theorem pyFindColon_host (host rest : Str) (h : ':' ∉ host) :
    pyFindColon (host ++ ':' :: rest) = (host.length : Int) := by
  induction host with
  | nil => simp [pyFindColon]
  | cons c cs ih =>
    simp only [List.mem_cons, not_or] at h
    simp only [List.cons_append, pyFindColon, if_neg (Ne.symm h.1),
      List.append_eq, ih h.2]
    have hnn : ¬ ((cs.length : Int) < 0) := by omega
    rw [if_neg hnn]
    simp only [List.length_cons]
    push_cast
    ring

theorem take_length_pred (l : Str) : l.take (l.length - 1) = l.dropLast := by
  induction l with
  | nil => rfl
  | cons c rest ih =>
    cases rest with
    | nil => rfl
    | cons r rs =>
      have hlen : (c :: r :: rs).length - 1 = rs.length + 1 := by simp
      rw [hlen, List.take_succ_cons]
      have hlen2 : rs.length = (r :: rs).length - 1 := by simp
      rw [hlen2, ih]
      rfl

theorem pySliceTo_neg_one (l : Str) : pySliceTo l (-1) = l.dropLast := by
  unfold pySliceTo
  rw [if_pos (by norm_num : (-1 : Int) < 0)]
  have h1 : (-(-1 : Int)).toNat = 1 := by decide
  rw [h1, take_length_pred]

theorem pySliceTo_natCast (l : Str) (n : Nat) : pySliceTo l (n : Int) = l.take n := by
  unfold pySliceTo
  have hnn : ¬ ((n : Int) < 0) := by omega
  rw [if_neg hnn, Int.toNat_natCast]

theorem location_to_ip_host (host rest : Str) (h : ':' ∉ host) :
    _zone_group_topology_location_to_ip (schemePfx ++ host ++ ':' :: rest) =
      .ok host := by
  have hpfx : hasPfx (schemePfx ++ (host ++ ':' :: rest)) schemePfx = true := by
    rw [hasPfx_iff]
    exact ⟨host ++ ':' :: rest, rfl⟩
  unfold _zone_group_topology_location_to_ip
  rw [List.append_assoc, hpfx]
  simp only [if_true, List.drop_left, pyFindColon_host host rest h,
    pySliceTo_natCast, List.take_left]

/-- Claim C4: for every Location of the fixed shape `http://host:...`
(colon-free host), the extraction returns exactly the host portion — in
particular `"http://192.168.1.5:1400/xml/device_description.xml"` yields
`"192.168.1.5"` — and for every Location not starting with `http://` it
fails with a `MalformedTopology` error (the source's failing `assert`,
surfaced as `PErr.badLocation`). -/
theorem location_extraction_spec :
    (∀ host rest : Str, ':' ∉ host →
      _zone_group_topology_location_to_ip (schemePfx ++ host ++ ':' :: rest) =
        .ok host) ∧
    (∀ loc : Str, ¬ (schemePfx <+: loc) →
      _zone_group_topology_location_to_ip loc = .error .badLocation) := by
  constructor
  · exact location_to_ip_host
  · intro loc h
    have hf : hasPfx loc schemePfx = false := by
      cases hp : hasPfx loc schemePfx
      · rfl
      · exact absurd ((hasPfx_iff loc schemePfx).mp hp) h
    unfold _zone_group_topology_location_to_ip
    rw [hf]
    simp

theorem location_extraction_spec_witness :
    (':' ∉ "192.168.1.5".toList ∧
      _zone_group_topology_location_to_ip
        "http://192.168.1.5:1400/xml/device_description.xml".toList =
          .ok "192.168.1.5".toList) ∧
    (¬ (schemePfx <+: "spdy://192.168.1.5:1400/x".toList) ∧
      _zone_group_topology_location_to_ip "spdy://192.168.1.5:1400/x".toList =
        .error .badLocation) := by
  have h1 : ':' ∉ "192.168.1.5".toList := by decide
  have heq : schemePfx ++ "192.168.1.5".toList ++
      ':' :: "1400/xml/device_description.xml".toList =
      "http://192.168.1.5:1400/xml/device_description.xml".toList := by decide
  have h2 : ¬ (schemePfx <+: "spdy://192.168.1.5:1400/x".toList) := by
    intro hp
    have ht := (hasPfx_iff "spdy://192.168.1.5:1400/x".toList schemePfx).mpr hp
    revert ht
    decide
  exact ⟨⟨h1, heq ▸ location_extraction_spec.1 "192.168.1.5".toList
      "1400/xml/device_description.xml".toList h1⟩,
    ⟨h2, location_extraction_spec.2 _ h2⟩⟩

/-- Claim C10: a Location starting with `http://` but containing no colon
after that prefix makes `str.find` return `-1`, and the Python slice
`location[:-1]` then drops the final character of the remainder instead
of returning the full host. -/
theorem location_no_port_drops_last (rest : Str) (h : ':' ∉ rest) :
    _zone_group_topology_location_to_ip (schemePfx ++ rest) =
      .ok rest.dropLast := by
  have hpfx : hasPfx (schemePfx ++ rest) schemePfx = true := by
    rw [hasPfx_iff]
    exact ⟨rest, rfl⟩
  unfold _zone_group_topology_location_to_ip
  rw [hpfx]
  simp only [if_true, List.drop_left, pyFindColon_no_colon rest h,
    pySliceTo_neg_one]

theorem location_no_port_drops_last_witness :
    ':' ∉ "hostname/path".toList ∧
      _zone_group_topology_location_to_ip "http://hostname/path".toList =
        .ok "hostname/pat".toList := by
  have h : ':' ∉ "hostname/path".toList := by decide
  have heq : schemePfx ++ "hostname/path".toList =
      "http://hostname/path".toList := by decide
  have hdl : ("hostname/path".toList : Str).dropLast = "hostname/pat".toList := by
    decide
  exact ⟨h, heq ▸ hdl ▸ location_no_port_drops_last "hostname/path".toList h⟩

/-! ## Properties of discovery polling -/

/-- Claim C9: inside the polling loop, a receive attempt failing with a
"no data yet" errno (`ETIMEDOUT` or `EAGAIN`) before the deadline is
swallowed and the loop simply retries on the remaining iterations, while
a receive attempt failing with any other errno makes the whole call fail
with that `OSError`. -/
theorem poll_errno_handling :
    (∀ (endTime : Nat) (ev : PollEvent) (rest : List PollEvent) (c : Nat),
      ev.time < endTime → ev.outcome = .err c → (c = ETIMEDOUT ∨ c = EAGAIN) →
      discoverLoop endTime (ev :: rest) = discoverLoop endTime rest) ∧
    (∀ (endTime : Nat) (ev : PollEvent) (rest : List PollEvent) (c : Nat),
      ev.time < endTime → ev.outcome = .err c → ¬ (c = ETIMEDOUT ∨ c = EAGAIN) →
      discoverLoop endTime (ev :: rest) = .error (.osError c)) := by
  constructor
  · intro endTime ev rest c ht ho hc
    simp [discoverLoop, Nat.not_le_of_lt ht, ho, hc]
  · intro endTime ev rest c ht ho hc
    simp [discoverLoop, Nat.not_le_of_lt ht, ho, hc]

theorem poll_errno_handling_witness :
    discoverLoop 10 [⟨3, .err EAGAIN⟩] = discoverLoop 10 [] ∧
      discoverLoop 10 [⟨3, .err 13⟩] = .error (.osError 13) := by
  refine ⟨poll_errno_handling.1 10 ⟨3, .err EAGAIN⟩ [] EAGAIN ?_ rfl ?_,
    poll_errno_handling.2 10 ⟨3, .err 13⟩ [] 13 ?_ rfl ?_⟩ <;> decide

/-- An event whose receive outcome neither delivers a marker datagram nor
raises a non-retryable errno. -/
def nonQualifying (ev : PollEvent) : Prop :=
  (∀ d ip, ev.outcome = .recv d ip → containsMarker d = false) ∧
    (∀ c, ev.outcome = .err c → c = ETIMEDOUT ∨ c = EAGAIN)

theorem discoverLoop_no_marker (endTime : Nat) (events : List PollEvent)
    (h : ∀ ev ∈ events, ev.time < endTime → nonQualifying ev) :
    discoverLoop endTime events = .ok none := by
  induction events with
  | nil => rfl
  | cons ev rest ih =>
    have hrest : ∀ e ∈ rest, e.time < endTime → nonQualifying e := by
      intro e he
      exact h e (List.mem_cons_of_mem ev he)
    by_cases ht : endTime ≤ ev.time
    · simp [discoverLoop, ht]
    · have hev := h ev (List.mem_cons_self ev rest) (Nat.lt_of_not_le ht)
      cases ho : ev.outcome with
      | err c =>
        simp [discoverLoop, ht, ho, hev.2 c ho, ih hrest]
      | recv d ip =>
        simp [discoverLoop, ht, ho, hev.1 d ip ho, ih hrest]

/-- Claim C8 (amended): when no qualifying datagram arrives before the
wall-clock deadline `start + timeout` — every poll iteration before the
deadline yields either a markerless datagram or a retryable errno — the
source's `discover` fails deterministically, but through the
`assert ip is not None` assertion (an `AssertionError`), not through a
typed `DiscoveryTimeout` error: no such typed error exists in the code.
With a 0-second effective deadline the hypothesis holds vacuously, so the
assertion failure is deterministic there. -/
theorem discover_no_device_asserts (startTime timeout : Nat)
    (events : List PollEvent)
    (h : ∀ ev ∈ events, ev.time < startTime + timeout → nonQualifying ev) :
    discoverResolveIp startTime timeout events = .error .assertionError := by
  unfold discoverResolveIp
  rw [discoverLoop_no_marker (startTime + timeout) events h]

theorem discover_no_device_asserts_witness :
    discoverResolveIp 5 0 [⟨5, .err 13⟩, ⟨6, .recv "Sonos here".toList "1.2.3.4".toList⟩] =
      .error .assertionError := by
  refine discover_no_device_asserts 5 0 _ ?_
  intro ev hev ht
  exfalso
  simp only [List.mem_cons, List.not_mem_nil, or_false] at hev
  rcases hev with rfl | rfl
  · exact absurd ht (by decide)
  · exact absurd ht (by decide)

/-- Claim C8, as stated, is false of the code: with a 0-second effective
deadline and no prior matching datagram, `discover` does not fail with a
`DiscoveryTimeout` condition delivered through a typed-error channel — it
fails with the `assert ip is not None` assertion. -/
theorem discover_timeout_counterexample :
    discoverResolveIp 0 0 [⟨0, .err EAGAIN⟩] = .error .assertionError ∧
      discoverResolveIp 0 0 [⟨0, .err EAGAIN⟩] ≠ .error .discoveryTimeout := by
  have he : discoverResolveIp 0 0 [⟨0, .err EAGAIN⟩] = .error .assertionError := rfl
  refine ⟨he, ?_⟩
  rw [he]
  intro h
  exact absurd (Except.error.inj h) (by decide)

/-! ## Properties of the track metadata extractor -/

/-- Claim C6: a recognized metadata start-tag (`dc:creator` to artist,
`upnp:album` to album, `dc:title` to title) makes the parser consume the
immediately following token as that field's value; a non-text token there
fails the `assert token == xmltok.TEXT` (`MErr.assertionError`, the
specification's `MalformedMetadata`); unrecognized tokens are skipped
with no effect on the fields; and the example fragment
`<dc:title>Song A</dc:title><dc:creator>Artist B</dc:creator>` with the
given duration strings yields exactly title "Song A", artist "Artist B",
no album, and the durations stored verbatim. -/
theorem metadata_tag_handling :
    (∀ (cur : Tok) (fld : MField) (v : Str) (t2 : Tok) (ts2 : List Tok)
        (f : MFields), tagField cur = some fld →
      parseMetadataLoop cur (.text v :: t2 :: ts2) f =
        parseMetadataLoop t2 ts2 (setField f fld v)) ∧
    (∀ (cur : Tok) (fld : MField) (v : Str) (f : MFields),
      tagField cur = some fld →
      parseMetadataLoop cur [.text v] f = .ok (setField f fld v)) ∧
    (∀ (cur : Tok) (fld : MField) (t : Tok) (ts' : List Tok) (f : MFields),
      tagField cur = some fld → (∀ w, t ≠ .text w) →
      parseMetadataLoop cur (t :: ts') f = .error .assertionError) ∧
    (∀ (cur t : Tok) (ts' : List Tok) (f : MFields),
      tagField cur = none →
      parseMetadataLoop cur (t :: ts') f = parseMetadataLoop t ts' f) ∧
    TrackInfo.make
      [.startTag "dc".toList "title".toList, .text "Song A".toList,
       .endTag "dc".toList "title".toList,
       .startTag "dc".toList "creator".toList, .text "Artist B".toList,
       .endTag "dc".toList "creator".toList]
      "0:03:30".toList "0:01:02".toList =
      .ok ⟨some "Artist B".toList, none, some "Song A".toList,
        "0:03:30".toList, "0:01:02".toList⟩ := by
  refine ⟨?_, ?_, ?_, ?_, ?_⟩
  · intro cur fld v t2 ts2 f h
    simp [parseMetadataLoop, h]
  · intro cur fld v f h
    simp [parseMetadataLoop, h]
  · intro cur fld t ts' f h hnt
    cases t with
    | text w => exact absurd rfl (hnt w)
    | startTag ns nm => simp [parseMetadataLoop, h]
    | endTag ns nm => simp [parseMetadataLoop, h]
    | attr ns nm v => simp [parseMetadataLoop, h]
  · intro cur t ts' f h
    simp [parseMetadataLoop, h]
  · rfl

theorem metadata_tag_handling_witness :
    (tagField (.startTag "dc".toList "creator".toList) = some .artist ∧
      parseMetadataLoop (.startTag "dc".toList "creator".toList)
        [.text "A".toList] ⟨none, none, none⟩ =
          .ok (setField ⟨none, none, none⟩ .artist "A".toList)) ∧
    (parseMetadataLoop (.startTag "dc".toList "title".toList)
        [.endTag "dc".toList "title".toList] ⟨none, none, none⟩ =
      .error .assertionError) := by
  have h1 : tagField (.startTag "dc".toList "creator".toList) = some .artist := by
    decide
  have h2 : tagField (.startTag "dc".toList "title".toList) = some .title := by
    decide
  refine ⟨⟨h1, metadata_tag_handling.2.1 _ .artist _ _ h1⟩, ?_⟩
  refine metadata_tag_handling.2.2.1 _ .title _ _ _ h2 ?_
  intro w h
  cases h

theorem tagField_title (t : Tok) (h : tagField t = some .title) :
    t = .startTag "dc".toList "title".toList := by
  cases t with
  | startTag ns nm =>
    simp only [tagField] at h
    split_ifs at h with h1 h2 h3
    · exact absurd h (by decide)
    · exact absurd h (by decide)
    · rw [h3.1, h3.2]
  | endTag ns nm => simp [tagField] at h
  | attr ns nm v => simp [tagField] at h
  | text v => simp [tagField] at h

theorem tagField_artist (t : Tok) (h : tagField t = some .artist) :
    t = .startTag "dc".toList "creator".toList := by
  cases t with
  | startTag ns nm =>
    simp only [tagField] at h
    split_ifs at h with h1 h2 h3
    · rw [h1.1, h1.2]
    · exact absurd h (by decide)
    · exact absurd h (by decide)
  | endTag ns nm => simp [tagField] at h
  | attr ns nm v => simp [tagField] at h
  | text v => simp [tagField] at h

theorem tagField_album (t : Tok) (h : tagField t = some .album) :
    t = .startTag "upnp".toList "album".toList := by
  cases t with
  | startTag ns nm =>
    simp only [tagField] at h
    split_ifs at h with h1 h2 h3
    · exact absurd h (by decide)
    · rw [h2.1, h2.2]
    · exact absurd h (by decide)
  | endTag ns nm => simp [tagField] at h
  | attr ns nm v => simp [tagField] at h
  | text v => simp [tagField] at h

theorem setField_title_of_ne (f : MFields) (fld : MField) (v : Str)
    (h : fld ≠ .title) : (setField f fld v).title = f.title := by
  cases fld with
  | title => exact absurd rfl h
  | artist => rfl
  | album => rfl

theorem setField_artist_of_ne (f : MFields) (fld : MField) (v : Str)
    (h : fld ≠ .artist) : (setField f fld v).artist = f.artist := by
  cases fld with
  | artist => exact absurd rfl h
  | title => rfl
  | album => rfl

theorem setField_album_of_ne (f : MFields) (fld : MField) (v : Str)
    (h : fld ≠ .album) : (setField f fld v).album = f.album := by
  cases fld with
  | album => exact absurd rfl h
  | title => rfl
  | artist => rfl

theorem parseMetadataLoop_okShape (l : List Tok) (h : OkShape l) :
    ∀ (cur : Tok) (ts : List Tok), l = cur :: ts → ∀ f : MFields,
      ∃ f', parseMetadataLoop cur ts f = .ok f' ∧
        ((.startTag "dc".toList "title".toList) ∉ l → f'.title = f.title) ∧
        ((.startTag "dc".toList "creator".toList) ∉ l → f'.artist = f.artist) ∧
        ((.startTag "upnp".toList "album".toList) ∉ l → f'.album = f.album) := by
  induction h with
  | nil => intro cur ts h; cases h
  | @hit t fld v ts0 htag hrest ih =>
    intro cur ts heq f
    cases heq
    have hfld_t : ¬ (.startTag "dc".toList "title".toList) ∈
        t :: Tok.text v :: ts0 → fld ≠ .title := by
      intro hm hf
      exact hm (by rw [← tagField_title t (hf ▸ htag)]; exact List.mem_cons_self _ _)
    have hfld_a : ¬ (.startTag "dc".toList "creator".toList) ∈
        t :: Tok.text v :: ts0 → fld ≠ .artist := by
      intro hm hf
      exact hm (by rw [← tagField_artist t (hf ▸ htag)]; exact List.mem_cons_self _ _)
    have hfld_b : ¬ (.startTag "upnp".toList "album".toList) ∈
        t :: Tok.text v :: ts0 → fld ≠ .album := by
      intro hm hf
      exact hm (by rw [← tagField_album t (hf ▸ htag)]; exact List.mem_cons_self _ _)
    cases ts0 with
    | nil =>
      refine ⟨setField f fld v, by simp [parseMetadataLoop, htag], ?_, ?_, ?_⟩
      · intro hm; exact setField_title_of_ne f fld v (hfld_t hm)
      · intro hm; exact setField_artist_of_ne f fld v (hfld_a hm)
      · intro hm; exact setField_album_of_ne f fld v (hfld_b hm)
    | cons t2 ts2 =>
      obtain ⟨f', hrun, hpt, hpa, hpb⟩ := ih t2 ts2 rfl (setField f fld v)
      refine ⟨f', by simp [parseMetadataLoop, htag, hrun], ?_, ?_, ?_⟩
      · intro hm
        rw [hpt fun hx => hm (List.mem_cons_of_mem _ (List.mem_cons_of_mem _ hx)),
          setField_title_of_ne f fld v (hfld_t hm)]
      · intro hm
        rw [hpa fun hx => hm (List.mem_cons_of_mem _ (List.mem_cons_of_mem _ hx)),
          setField_artist_of_ne f fld v (hfld_a hm)]
      · intro hm
        rw [hpb fun hx => hm (List.mem_cons_of_mem _ (List.mem_cons_of_mem _ hx)),
          setField_album_of_ne f fld v (hfld_b hm)]
  | @skip t ts0 htag hrest ih =>
    intro cur ts heq f
    cases heq
    cases ts0 with
    | nil => exact ⟨f, by simp [parseMetadataLoop, htag], fun _ => rfl,
        fun _ => rfl, fun _ => rfl⟩
    | cons t2 ts2 =>
      obtain ⟨f', hrun, hpt, hpa, hpb⟩ := ih t2 ts2 rfl f
      refine ⟨f', by simp [parseMetadataLoop, htag, hrun], ?_, ?_, ?_⟩
      · intro hm; exact hpt fun hx => hm (List.mem_cons_of_mem _ hx)
      · intro hm; exact hpa fun hx => hm (List.mem_cons_of_mem _ hx)
      · intro hm; exact hpb fun hx => hm (List.mem_cons_of_mem _ hx)

/-- Claim C7: a metadata fragment with no `dc:title` element (satisfying
the parser's leaf-text shape assumption) still constructs a `TrackInfo`
rather than failing: the title attribute is simply never set (absent),
and likewise absent `dc:creator` / `upnp:album` leave artist/album
unset — absence is represented as missing, never as an error. -/
theorem trackinfo_missing_title (toks : List Tok) (cur : Tok) (ts : List Tok)
    (heq : toks = cur :: ts) (h : OkShape toks) (total current : Str)
    (hnt : (.startTag "dc".toList "title".toList) ∉ toks) :
    ∃ info, TrackInfo.make toks total current = .ok info ∧
      info.title = none ∧
      ((.startTag "dc".toList "creator".toList) ∉ toks → info.artist = none) ∧
      ((.startTag "upnp".toList "album".toList) ∉ toks → info.album = none) := by
  subst heq
  obtain ⟨f', hrun, hpt, hpa, hpb⟩ :=
    parseMetadataLoop_okShape (cur :: ts) h cur ts rfl ⟨none, none, none⟩
  refine ⟨⟨f'.artist, f'.album, f'.title, total, current⟩, ?_, hpt hnt, hpa, hpb⟩
  simp [TrackInfo.make, parse_metadata, hrun, Except.map]

theorem trackinfo_missing_title_witness :
    ∃ info, TrackInfo.make
        [.startTag "x".toList "item".toList, .text "hi".toList]
        "0:03:30".toList "0:01:02".toList = .ok info ∧
      info.title = none ∧
      ((.startTag "dc".toList "creator".toList) ∉
        [Tok.startTag "x".toList "item".toList, Tok.text "hi".toList] →
          info.artist = none) ∧
      ((.startTag "upnp".toList "album".toList) ∉
        [Tok.startTag "x".toList "item".toList, Tok.text "hi".toList] →
          info.album = none) :=
  trackinfo_missing_title _ _ _ rfl
    (OkShape.skip (by decide) (OkShape.skip (by decide) OkShape.nil))
    _ _ (by decide)

/-! ## Step lemmas for the topology extractor

One lemma per transition of the scanning loop, mirroring the source's
loop structure: these are the only places `loop` is ever unfolded. -/

theorem loop_seekGroup_skip (cur t : Tok) (ts : List Tok) (acc : List ZGroup)
    (h : cur ≠ zgS) :
    loop cur (t :: ts) .seekGroup acc = loop t ts .seekGroup acc := by
  rw [loop]
  simp only [stabilize, stabSG, if_neg h]

theorem loop_seekGroup_nil (cur : Tok) (acc : List ZGroup) (h : cur ≠ zgS) :
    loop cur [] .seekGroup acc = .ok acc := by
  rw [loop]
  simp only [stabilize, stabSG, if_neg h]

theorem loop_seekGroup_found (t : Tok) (ts : List Tok) (acc : List ZGroup) :
    loop zgS (t :: ts) .seekGroup acc = loop t ts .seekCoord acc := by
  rw [loop]
  simp [stabilize, stabSG]

theorem loop_seekGroup_found_nil (acc : List ZGroup) :
    loop zgS [] .seekGroup acc = .error .truncated := by
  rw [loop]
  simp [stabilize, stabSG]

theorem loop_seekCoord_skip (cur t : Tok) (ts : List Tok) (acc : List ZGroup)
    (h : stabSC cur = .seekCoord) :
    loop cur (t :: ts) .seekCoord acc = loop t ts .seekCoord acc := by
  rw [loop]
  simp only [stabilize, h]

theorem loop_seekCoord_nil (cur : Tok) (acc : List ZGroup)
    (h : stabSC cur = .seekCoord) :
    loop cur [] .seekCoord acc = .error .truncated := by
  rw [loop]
  simp only [stabilize, h]

theorem stabSC_coordA (c : Str) : stabSC (coordA c) = .scanMembers c [] := by
  simp [stabSC, coordA]

theorem loop_seekCoord_found_member (c : Str) (ts : List Tok)
    (acc : List ZGroup) :
    loop (coordA c) (zgmS :: ts) .seekCoord acc =
      loop zgmS ts (.memberAttrs c [] none none none) acc := by
  rw [loop]
  simp [stabilize, stabSC_coordA]

theorem loop_seekCoord_found_other (c : Str) (t : Tok) (ts : List Tok)
    (acc : List ZGroup) (h : t ≠ zgmS) :
    loop (coordA c) (t :: ts) .seekCoord acc =
      loop t ts (.scanMembers c []) acc := by
  rw [loop]
  simp only [stabilize, stabSC_coordA, if_neg h]

theorem loop_scanMembers_member (cur : Tok) (c : Str)
    (ps : List (Str × Player)) (ts : List Tok) (acc : List ZGroup)
    (h : cur ≠ zgE) :
    loop cur (zgmS :: ts) (.scanMembers c ps) acc =
      loop zgmS ts (.memberAttrs c ps none none none) acc := by
  rw [loop]
  simp [stabilize, stabSM, if_neg h]

theorem loop_scanMembers_other (cur t : Tok) (c : Str)
    (ps : List (Str × Player)) (ts : List Tok) (acc : List ZGroup)
    (h : cur ≠ zgE) (h2 : t ≠ zgmS) :
    loop cur (t :: ts) (.scanMembers c ps) acc =
      loop t ts (.scanMembers c ps) acc := by
  rw [loop]
  simp only [stabilize, stabSM, if_neg h, if_neg h2]

theorem loop_scanMembers_nil (cur : Tok) (c : Str) (ps : List (Str × Player))
    (acc : List ZGroup) (h : cur ≠ zgE) :
    loop cur [] (.scanMembers c ps) acc = .error .truncated := by
  rw [loop]
  simp only [stabilize, stabSM, if_neg h]

theorem loop_scanMembers_exit (ts : List Tok) (c : Str)
    (ps : List (Str × Player)) (acc : List ZGroup) :
    loop zgE ts (.scanMembers c ps) acc =
      loop zgE ts .seekGroup (acc ++ [⟨c, ps⟩]) := by
  have hz : zgE ≠ zgS := by decide
  cases ts with
  | nil =>
    rw [loop, loop]
    simp [stabilize, stabSM, stabSG, if_neg hz]
  | cons t ts' =>
    rw [loop, loop]
    simp [stabilize, stabSM, stabSG, if_neg hz]

theorem loop_memberAttrs_nil (cur : Tok) (c : Str) (ps : List (Str × Player))
    (u n i : Option Str) (acc : List ZGroup)
    (h : (truthy u && truthy n && truthy i) = false) :
    loop cur [] (.memberAttrs c ps u n i) acc = .error .truncated := by
  rw [loop]
  simp only [stabilize, stabMA, h, Bool.false_eq_true, if_false]

theorem loop_memberAttrs_uuid (cur : Tok) (v : Str) (ts : List Tok) (c : Str)
    (ps : List (Str × Player)) (u n i : Option Str) (acc : List ZGroup)
    (h : (truthy u && truthy n && truthy i) = false) :
    loop cur (uuidA v :: ts) (.memberAttrs c ps u n i) acc =
      loop (uuidA v) ts (.memberAttrs c ps (some v) n i) acc := by
  rw [loop]
  simp only [stabilize, stabMA, h, Bool.false_eq_true, if_false, uuidA]
  simp

theorem loop_memberAttrs_zname (cur : Tok) (v : Str) (ts : List Tok) (c : Str)
    (ps : List (Str × Player)) (u n i : Option Str) (acc : List ZGroup)
    (h : (truthy u && truthy n && truthy i) = false) :
    loop cur (znameA v :: ts) (.memberAttrs c ps u n i) acc =
      loop (znameA v) ts (.memberAttrs c ps u (some v) i) acc := by
  have hne : (("ZoneName".toList : Str) = "UUID".toList) = False := by decide
  rw [loop]
  simp only [stabilize, stabMA, h, Bool.false_eq_true, if_false, znameA]
  simp [hne]

theorem loop_memberAttrs_loc (cur : Tok) (v w : Str) (ts : List Tok) (c : Str)
    (ps : List (Str × Player)) (u n i : Option Str) (acc : List ZGroup)
    (h : (truthy u && truthy n && truthy i) = false)
    (hl : _zone_group_topology_location_to_ip v = .ok w) :
    loop cur (locA v :: ts) (.memberAttrs c ps u n i) acc =
      loop (locA v) ts (.memberAttrs c ps u n (some w)) acc := by
  have hne1 : (("Location".toList : Str) = "UUID".toList) = False := by decide
  have hne2 : (("Location".toList : Str) = "ZoneName".toList) = False := by decide
  rw [loop]
  simp only [stabilize, stabMA, h, Bool.false_eq_true, if_false, locA]
  simp [hne1, hne2, hl]

theorem loop_memberAttrs_loc_err (cur : Tok) (v : Str) (e : PErr)
    (ts : List Tok) (c : Str) (ps : List (Str × Player)) (u n i : Option Str)
    (acc : List ZGroup)
    (h : (truthy u && truthy n && truthy i) = false)
    (hl : _zone_group_topology_location_to_ip v = .error e) :
    loop cur (locA v :: ts) (.memberAttrs c ps u n i) acc = .error e := by
  have hne1 : (("Location".toList : Str) = "UUID".toList) = False := by decide
  have hne2 : (("Location".toList : Str) = "ZoneName".toList) = False := by decide
  rw [loop]
  simp only [stabilize, stabMA, h, Bool.false_eq_true, if_false, locA]
  simp [hne1, hne2, hl]

theorem loop_memberAttrs_done (cur : Tok) (ts : List Tok) (c : Str)
    (ps : List (Str × Player)) (u n i : Option Str) (acc : List ZGroup)
    (h : (truthy u && truthy n && truthy i) = true) (hc : cur ≠ zgE) :
    loop cur ts (.memberAttrs c ps u n i) acc =
      loop cur ts
        (.scanMembers c (dictInsert ps (u.getD []) ⟨u.getD [], n.getD [], i.getD []⟩))
        acc := by
  cases ts with
  | nil =>
    rw [loop, loop]
    simp only [stabilize, stabMA, h, if_true, stabSM, if_neg hc]
  | cons t ts' =>
    rw [loop, loop]
    simp only [stabilize, stabMA, h, if_true, stabSM, if_neg hc]

/-! ## Parsing a well-formed topology document (claim C1) -/

theorem truthy_some_of_ne (s : Str) (h : s ≠ []) : truthy (some s) = true := by
  cases s with
  | nil => exact absurd rfl h
  | cons a l => rfl

theorem memberDoc_location_ip (m : MemberDoc) (hm : WfMember m) :
    _zone_group_topology_location_to_ip m.location = .ok m.host :=
  location_to_ip_host m.host m.rest hm.2.2.2

theorem loop_member_step (m : MemberDoc) (hm : WfMember m) (c : Str)
    (ps : List (Str × Player)) (rest : List Tok) (acc : List ZGroup) :
    loop zgmS (serMemberAttrs m ++ rest) (.memberAttrs c ps none none none) acc =
      loop (locA m.location) rest
        (.scanMembers c (dictInsert ps m.uuid (playerOf m))) acc := by
  obtain ⟨hu, hn, hh, hcol⟩ := hm
  have h1 : (truthy (none : Option Str) && truthy (none : Option Str) &&
      truthy (none : Option Str)) = false := rfl
  have h2 : (truthy (some m.uuid) && truthy (none : Option Str) &&
      truthy (none : Option Str)) = false := by simp [truthy]
  have h3 : (truthy (some m.uuid) && truthy (some m.zname) &&
      truthy (none : Option Str)) = false := by simp [truthy]
  have h4 : (truthy (some m.uuid) && truthy (some m.zname) &&
      truthy (some m.host)) = true := by
    simp [truthy_some_of_ne _ hu, truthy_some_of_ne _ hn, truthy_some_of_ne _ hh]
  have hloc : _zone_group_topology_location_to_ip m.location = .ok m.host :=
    location_to_ip_host m.host m.rest hcol
  rw [serMemberAttrs]
  simp only [List.cons_append, List.nil_append]
  rw [loop_memberAttrs_uuid _ _ _ _ _ _ _ _ _ h1,
    loop_memberAttrs_zname _ _ _ _ _ _ _ _ _ h2,
    loop_memberAttrs_loc _ _ _ _ _ _ _ _ _ _ h3 hloc,
    loop_memberAttrs_done _ _ _ _ _ _ _ _ h4 (by simp [locA, zgE])]
  simp [playerOf]

theorem loop_members_chain (ms : List MemberDoc)
    (hms : ∀ m ∈ ms, WfMember m) (c : Str) (rest : List Tok)
    (acc : List ZGroup) :
    ∀ (cur : Tok) (ps : List (Str × Player)), cur ≠ zgE →
    loop cur (ms.flatMap serMember ++ zgE :: rest) (.scanMembers c ps) acc =
      loop zgE rest .seekGroup (acc ++ [⟨c, insertAll ps ms⟩]) := by
  induction ms with
  | nil =>
    intro cur ps hcur
    simp only [List.flatMap_nil, List.nil_append]
    rw [loop_scanMembers_other _ _ _ _ _ _ hcur (by decide),
      loop_scanMembers_exit]
    rfl
  | cons m ms' ih =>
    intro cur ps hcur
    have hm : WfMember m := hms m (List.mem_cons_self m ms')
    have hms' : ∀ m' ∈ ms', WfMember m' := fun m' h' =>
      hms m' (List.mem_cons_of_mem m h')
    simp only [List.flatMap_cons, serMember, List.cons_append,
      List.append_assoc]
    rw [loop_scanMembers_member _ _ _ _ _ hcur,
      loop_member_step m hm c ps _ acc,
      ih hms' _ _ (by simp [locA, zgE])]
    have : insertAll ps (m :: ms') =
        insertAll (dictInsert ps m.uuid (playerOf m)) ms' := rfl
    rw [this]

theorem loop_group_step (g : GroupDoc) (hg : ∀ m ∈ g.members, WfMember m)
    (rest : List Tok) (acc : List ZGroup) :
    loop zgS (serGroupTail g ++ rest) .seekGroup acc =
      loop zgE rest .seekGroup
        (acc ++ [⟨g.coordinator, insertAll [] g.members⟩]) := by
  rw [serGroupTail]
  cases hmem : g.members with
  | nil =>
    simp only [List.flatMap_nil, List.nil_append, List.cons_append]
    rw [loop_seekGroup_found, loop_seekCoord_found_other _ _ _ _ (by decide),
      loop_scanMembers_exit]
    rfl
  | cons m ms' =>
    have hm : WfMember m := hg m (by rw [hmem]; exact List.mem_cons_self m ms')
    have hms' : ∀ m' ∈ ms', WfMember m' := fun m' h' =>
      hg m' (by rw [hmem]; exact List.mem_cons_of_mem m h')
    simp only [List.flatMap_cons, serMember, List.cons_append,
      List.append_assoc]
    rw [loop_seekGroup_found, loop_seekCoord_found_member,
      loop_member_step m hm _ _ _ acc,
      loop_members_chain ms' hms' _ _ _ _ _ (by simp [locA, zgE])]
    simp only [List.nil_append]
    rfl

theorem loop_seekGroup_no_group (ts : List Tok) :
    ∀ (cur : Tok) (acc : List ZGroup), cur ≠ zgS → zgS ∉ ts →
      loop cur ts .seekGroup acc = .ok acc := by
  induction ts with
  | nil => intro cur acc h1 h2; exact loop_seekGroup_nil cur acc h1
  | cons t ts' ih =>
    intro cur acc h1 h2
    simp only [List.mem_cons, not_or] at h2
    rw [loop_seekGroup_skip _ _ _ _ h1]
    exact ih t acc (Ne.symm h2.1) h2.2

theorem loop_doc_chain (gs : List GroupDoc)
    (h : ∀ g ∈ gs, ∀ m ∈ g.members, WfMember m)
    (trailing : List Tok) (htr : zgS ∉ trailing) :
    ∀ (cur : Tok) (acc : List ZGroup), cur ≠ zgS →
    loop cur (gs.flatMap serGroup ++ trailing) .seekGroup acc =
      .ok (acc ++ gs.map fun g => ⟨g.coordinator, insertAll [] g.members⟩) := by
  induction gs with
  | nil =>
    intro cur acc hcur
    simp only [List.flatMap_nil, List.nil_append, List.map_nil,
      List.append_nil]
    exact loop_seekGroup_no_group trailing cur acc hcur htr
  | cons g gs' ih =>
    intro cur acc hcur
    have hg : ∀ m ∈ g.members, WfMember m := h g (List.mem_cons_self g gs')
    have hgs' : ∀ g' ∈ gs', ∀ m ∈ g'.members, WfMember m := fun g' h' =>
      h g' (List.mem_cons_of_mem g h')
    simp only [List.flatMap_cons, serGroup, List.cons_append,
      List.append_assoc]
    rw [loop_seekGroup_skip _ _ _ _ hcur, loop_group_step g hg _ acc]
    rw [ih hgs' zgE _ (by decide)]
    simp

theorem dictInsert_fresh (ps : List (Str × Player)) (k : Str) (v : Player)
    (h : k ∉ ps.map Prod.fst) : dictInsert ps k v = ps ++ [(k, v)] := by
  induction ps with
  | nil => rfl
  | cons p rest ih =>
    simp only [List.map_cons, List.mem_cons, not_or] at h
    cases p with
    | mk k' v' =>
      simp only [dictInsert, if_neg (Ne.symm h.1), List.cons_append]
      rw [ih h.2]

theorem insertAll_fresh (ms : List MemberDoc) :
    ∀ ps : List (Str × Player), (ms.map MemberDoc.uuid).Nodup →
      (∀ m ∈ ms, m.uuid ∉ ps.map Prod.fst) →
      insertAll ps ms = ps ++ ms.map pairOf := by
  induction ms with
  | nil => intro ps _ _; simp [insertAll]
  | cons m ms' ih =>
    intro ps hnd hdisj
    simp only [List.map_cons, List.nodup_cons] at hnd
    have hstep : insertAll ps (m :: ms') =
        insertAll (ps ++ [(m.uuid, playerOf m)]) ms' := by
      show insertAll (dictInsert ps m.uuid (playerOf m)) ms' =
        insertAll (ps ++ [(m.uuid, playerOf m)]) ms'
      rw [dictInsert_fresh ps m.uuid (playerOf m)
        (hdisj m (List.mem_cons_self m ms'))]
    rw [hstep, ih (ps ++ [(m.uuid, playerOf m)]) hnd.2]
    · simp [pairOf]
    · intro m' hm'
      simp only [List.map_append, List.map_cons, List.map_nil,
        List.mem_append, List.mem_singleton, not_or]
      refine ⟨hdisj m' (List.mem_cons_of_mem m hm'), ?_⟩
      intro heq
      exact hnd.1 (heq ▸ List.mem_map_of_mem MemberDoc.uuid hm')

theorem countMemberTags_serMember (m : MemberDoc) :
    countMemberTags (serMember m) = 1 := by
  simp [countMemberTags, serMember, serMemberAttrs, List.countP_cons,
    uuidA, znameA, locA, zgmS, List.countP_nil]

theorem countMemberTags_members (ms : List MemberDoc) :
    countMemberTags (ms.flatMap serMember) = ms.length := by
  induction ms with
  | nil => rfl
  | cons m ms' ih =>
    simp only [List.flatMap_cons, countMemberTags, List.countP_append]
    have h1 := countMemberTags_serMember m
    rw [countMemberTags] at h1 ih
    rw [h1, ih]
    simp [List.length_cons, Nat.add_comm]

theorem countMemberTags_serGroup (g : GroupDoc) :
    countMemberTags (serGroup g) = g.members.length := by
  have h := countMemberTags_members g.members
  simp only [countMemberTags, serGroup, serGroupTail, List.countP_cons,
    List.countP_append] at h ⊢
  rw [h]
  simp [zgS, zgE, coordA, zgmS]

theorem countMemberTags_doc (gs : List GroupDoc) :
    countMemberTags (serTopology gs) =
      (gs.map fun g => g.members.length).sum := by
  have hflat : ∀ gs' : List GroupDoc,
      countMemberTags (gs'.flatMap serGroup) =
        (gs'.map fun g => g.members.length).sum := by
    intro gs'
    induction gs' with
    | nil => rfl
    | cons g rest ih =>
      simp only [List.flatMap_cons, countMemberTags, List.countP_append,
        List.map_cons, List.sum_cons]
      have h1 := countMemberTags_serGroup g
      rw [countMemberTags] at h1 ih
      rw [h1, ih]
  have h := hflat gs
  simp only [countMemberTags, serTopology, List.countP_cons,
    List.countP_append, List.countP_nil] at h ⊢
  rw [h]
  simp [zgmS]

/-- Claim C1: for every well-formed topology document, the extractor
returns exactly one group record per `ZoneGroup` element, in document
order (the result is literally the per-group records in sequence), the
total member count across the returned groups equals the number of
`ZoneGroupMember` start-tags in the document, and each group's declared
Coordinator UUID is a key of its own member mapping. -/
theorem topology_wellformed_parse (gs : List GroupDoc) (h : WfTopology gs) :
    query_zone_group_topology (serTopology gs) = .ok (gs.map groupOf) ∧
    (gs.map groupOf).length = gs.length ∧
    ((gs.map groupOf).map fun g => g.players.length).sum =
      countMemberTags (serTopology gs) ∧
    (∀ g ∈ gs.map groupOf, g.coordinator_uuid ∈ g.players.map Prod.fst) := by
  have hwfm : ∀ g ∈ gs, ∀ m ∈ g.members, WfMember m := fun g hg => (h g hg).1
  have hins : ∀ g ∈ gs, insertAll [] g.members = g.members.map pairOf := by
    intro g hg
    exact insertAll_fresh g.members [] (h g hg).2.1 (by simp)
  have hmain : query_zone_group_topology (serTopology gs) =
      .ok (gs.map groupOf) := by
    rw [serTopology, query_zone_group_topology]
    rw [loop_doc_chain gs hwfm [.endTag [] "ZoneGroups".toList] (by decide)
      _ [] (by decide)]
    congr 1
    simp only [List.nil_append]
    refine List.map_congr_left ?_
    intro g hg
    rw [groupOf, ← hins g hg]
  refine ⟨hmain, by simp, ?_, ?_⟩
  · rw [countMemberTags_doc]
    congr 1
    rw [List.map_map]
    refine List.map_congr_left ?_
    intro g hg
    simp [groupOf, Function.comp]
  · intro g hg
    obtain ⟨gd, hgd, rfl⟩ := List.mem_map.mp hg
    have hco := (h gd hgd).2.2
    simp only [groupOf, List.map_map]
    have : (Prod.fst ∘ pairOf) = MemberDoc.uuid := by
      funext m
      rfl
    rw [this]
    exact hco

theorem topology_wellformed_parse_witness :
    (WfTopology [⟨"u1".toList,
      [⟨"u1".toList, "Kitchen".toList, "10.0.0.7".toList, "1400/xml".toList⟩]⟩] ∧
    query_zone_group_topology (serTopology [⟨"u1".toList,
      [⟨"u1".toList, "Kitchen".toList, "10.0.0.7".toList, "1400/xml".toList⟩]⟩]) =
      .ok (List.map groupOf [⟨"u1".toList,
        [⟨"u1".toList, "Kitchen".toList, "10.0.0.7".toList, "1400/xml".toList⟩]⟩])) := by
  have hwf : WfTopology [⟨"u1".toList,
      [⟨"u1".toList, "Kitchen".toList, "10.0.0.7".toList, "1400/xml".toList⟩]⟩] := by
    decide
  exact ⟨hwf, (topology_wellformed_parse _ hwf).1⟩

/-! ## Members with missing attributes (claim C3) -/

theorem loop_memberAttrs_no_loc (rest : List Tok) :
    ∀ (cur : Tok) (c : Str) (ps : List (Str × Player)) (u n : Option Str)
      (acc : List ZGroup), (∀ v : Str, locA v ∉ rest) →
      loop cur rest (.memberAttrs c ps u n none) acc = .error .truncated := by
  induction rest with
  | nil =>
    intro cur c ps u n acc hv
    exact loop_memberAttrs_nil cur c ps u n none acc (by simp [truthy])
  | cons t ts' ih =>
    intro cur c ps u n acc hv
    have hfalse : (truthy u && truthy n && truthy none) = false := by
      simp [truthy]
    have hv' : ∀ v : Str, locA v ∉ ts' := fun v hmem =>
      hv v (List.mem_cons_of_mem t hmem)
    cases t with
    | attr ans anm v =>
      rw [loop]
      simp only [stabilize, stabMA, hfalse, Bool.false_eq_true, if_false]
      by_cases h1 : ans = [] ∧ anm = "UUID".toList
      · rw [if_pos h1]
        exact ih (.attr ans anm v) c ps (some v) n acc hv'
      · rw [if_neg h1]
        by_cases h2 : ans = [] ∧ anm = "ZoneName".toList
        · rw [if_pos h2]
          exact ih (.attr ans anm v) c ps u (some v) acc hv'
        · rw [if_neg h2]
          by_cases h3 : ans = [] ∧ anm = "Location".toList
          · exfalso
            obtain ⟨rfl, rfl⟩ := h3
            exact hv v (List.mem_cons_self _ _)
          · rw [if_neg h3]
            exact ih (.attr ans anm v) c ps u n acc hv'
    | startTag ns nm =>
      rw [loop]
      simp only [stabilize, stabMA, hfalse, Bool.false_eq_true, if_false]
      exact ih (.startTag ns nm) c ps u n acc hv'
    | endTag ns nm =>
      rw [loop]
      simp only [stabilize, stabMA, hfalse, Bool.false_eq_true, if_false]
      exact ih (.endTag ns nm) c ps u n acc hv'
    | text w =>
      rw [loop]
      simp only [stabilize, stabMA, hfalse, Bool.false_eq_true, if_false]
      exact ih (.text w) c ps u n acc hv'

/-- Claim C3, as stated, is false of the code: in this document the first
`ZoneGroupMember` lacks its `Location` attribute, yet parsing does not
fail — the member-attribute loop scans straight past the next
`ZoneGroupMember` start-tag and completes the first member with the
second member's attribute values, silently returning one merged member
(and losing the second member entirely). -/
theorem member_missing_attr_counterexample :
    query_zone_group_topology
      [zgS, coordA "u2".toList,
       zgmS, uuidA "u1".toList, znameA "n1".toList,
       zgmS, uuidA "u2".toList, znameA "n2".toList,
       locA "http://h2:1400/x".toList, zgE] =
      .ok [⟨"u2".toList,
        [("u2".toList, ⟨"u2".toList, "n2".toList, "h2".toList⟩)]⟩] := by
  rfl

/-- Claim C3 (amended): a `ZoneGroupMember` missing a required attribute
does not make parsing fail at the group boundary or at the next member
start-tag; the attribute loop keeps consuming tokens (including the
group's end-tag and later members' tokens, stealing their attribute
values).  Parsing fails — with a `MalformedTopology` error, by stream
exhaustion — exactly when the remaining stream never supplies the missing
attribute: here, a member missing `Location` in a stream with no further
`Location=` attribute ends in `PErr.truncated`. -/
theorem member_missing_attr (c u n : Str) (rest : List Tok)
    (hv : ∀ v : Str, locA v ∉ rest) :
    query_zone_group_topology
      ([zgS, coordA c, zgmS, uuidA u, znameA n] ++ rest) =
      .error .truncated := by
  show loop zgS (coordA c :: zgmS :: uuidA u :: znameA n :: rest)
    .seekGroup [] = _
  rw [loop_seekGroup_found, loop_seekCoord_found_member,
    loop_memberAttrs_uuid _ _ _ _ _ _ _ _ _ (by simp [truthy]),
    loop_memberAttrs_zname _ _ _ _ _ _ _ _ _ (by simp [truthy])]
  exact loop_memberAttrs_no_loc rest _ c [] (some u) (some n) [] hv

theorem member_missing_attr_witness :
    query_zone_group_topology
      ([zgS, coordA "c0".toList, zgmS, uuidA "u0".toList,
        znameA "n0".toList] ++ [zgE]) = .error .truncated :=
  member_missing_attr "c0".toList "u0".toList "n0".toList [zgE]
    (fun v h => by simp [locA, zgE] at h)

/-! ## Member attribute order (claim C5) -/

theorem loop_scanMembers_cur (cur cur' : Tok) (ts : List Tok) (c : Str)
    (ps : List (Str × Player)) (acc : List ZGroup)
    (h : cur ≠ zgE) (h' : cur' ≠ zgE) :
    loop cur ts (.scanMembers c ps) acc =
      loop cur' ts (.scanMembers c ps) acc := by
  cases ts with
  | nil => rw [loop_scanMembers_nil _ _ _ _ h, loop_scanMembers_nil _ _ _ _ h']
  | cons t ts' =>
    by_cases ht : t = zgmS
    · subst ht
      rw [loop_scanMembers_member _ _ _ _ _ h,
        loop_scanMembers_member _ _ _ _ _ h']
    · rw [loop_scanMembers_other _ _ _ _ _ _ h ht,
        loop_scanMembers_other _ _ _ _ _ _ h' ht]

/-- Claim C5: a self-closing `ZoneGroupMember` element with its `UUID`,
`ZoneName` and `Location` attributes in any of the six possible orders
parses to the same result as the canonical order — the member record
(uuid, name, ip) stored in the group is identical, and so is the entire
remaining parse. -/
theorem member_attr_order_irrelevant (m : MemberDoc) (hm : WfMember m)
    (attrs : List Tok) (hp : attrs ∈ attrPerms m) (c : Str)
    (rest : List Tok) :
    query_zone_group_topology (zgS :: coordA c :: zgmS :: (attrs ++ rest)) =
      query_zone_group_topology
        (zgS :: coordA c :: zgmS :: (serMemberAttrs m ++ rest)) := by
  obtain ⟨hu, hn, hh, hcol⟩ := hm
  have hall : (truthy (some m.uuid) && truthy (some m.zname) &&
      truthy (some m.host)) = true := by
    simp [truthy_some_of_ne _ hu, truthy_some_of_ne _ hn, truthy_some_of_ne _ hh]
  have hloc : _zone_group_topology_location_to_ip m.location = .ok m.host :=
    location_to_ip_host m.host m.rest hcol
  have hq : ∀ L : List Tok,
      query_zone_group_topology (zgS :: coordA c :: zgmS :: L) =
        loop zgmS L (.memberAttrs c [] none none none) [] := by
    intro L
    show loop zgS (coordA c :: zgmS :: L) .seekGroup [] = _
    rw [loop_seekGroup_found, loop_seekCoord_found_member]
  rw [hq, hq, loop_member_step m ⟨hu, hn, hh, hcol⟩ c [] rest []]
  simp only [attrPerms, List.mem_cons, List.not_mem_nil, or_false] at hp
  rcases hp with rfl | rfl | rfl | rfl | rfl | rfl
  · simp only [List.cons_append, List.nil_append]
    rw [loop_memberAttrs_uuid _ _ _ _ _ _ _ _ _ (by simp [truthy]),
      loop_memberAttrs_zname _ _ _ _ _ _ _ _ _ (by simp [truthy]),
      loop_memberAttrs_loc _ _ _ _ _ _ _ _ _ _ (by simp [truthy]) hloc,
      loop_memberAttrs_done _ _ _ _ _ _ _ _ hall (by simp [locA, zgE])]
    simp only [Option.getD_some]
    exact loop_scanMembers_cur _ _ _ _ _ _ (by simp [locA, zgE])
      (by simp [locA, zgE])
  · simp only [List.cons_append, List.nil_append]
    rw [loop_memberAttrs_uuid _ _ _ _ _ _ _ _ _ (by simp [truthy]),
      loop_memberAttrs_loc _ _ _ _ _ _ _ _ _ _ (by simp [truthy]) hloc,
      loop_memberAttrs_zname _ _ _ _ _ _ _ _ _ (by simp [truthy]),
      loop_memberAttrs_done _ _ _ _ _ _ _ _ hall (by simp [znameA, zgE])]
    simp only [Option.getD_some]
    exact loop_scanMembers_cur _ _ _ _ _ _ (by simp [znameA, zgE])
      (by simp [locA, zgE])
  · simp only [List.cons_append, List.nil_append]
    rw [loop_memberAttrs_zname _ _ _ _ _ _ _ _ _ (by simp [truthy]),
      loop_memberAttrs_uuid _ _ _ _ _ _ _ _ _ (by simp [truthy]),
      loop_memberAttrs_loc _ _ _ _ _ _ _ _ _ _ (by simp [truthy]) hloc,
      loop_memberAttrs_done _ _ _ _ _ _ _ _ hall (by simp [locA, zgE])]
    simp only [Option.getD_some]
    exact loop_scanMembers_cur _ _ _ _ _ _ (by simp [locA, zgE])
      (by simp [locA, zgE])
  · simp only [List.cons_append, List.nil_append]
    rw [loop_memberAttrs_zname _ _ _ _ _ _ _ _ _ (by simp [truthy]),
      loop_memberAttrs_loc _ _ _ _ _ _ _ _ _ _ (by simp [truthy]) hloc,
      loop_memberAttrs_uuid _ _ _ _ _ _ _ _ _ (by simp [truthy]),
      loop_memberAttrs_done _ _ _ _ _ _ _ _ hall (by simp [uuidA, zgE])]
    simp only [Option.getD_some]
    exact loop_scanMembers_cur _ _ _ _ _ _ (by simp [uuidA, zgE])
      (by simp [locA, zgE])
  · simp only [List.cons_append, List.nil_append]
    rw [loop_memberAttrs_loc _ _ _ _ _ _ _ _ _ _ (by simp [truthy]) hloc,
      loop_memberAttrs_uuid _ _ _ _ _ _ _ _ _ (by simp [truthy]),
      loop_memberAttrs_zname _ _ _ _ _ _ _ _ _ (by simp [truthy]),
      loop_memberAttrs_done _ _ _ _ _ _ _ _ hall (by simp [znameA, zgE])]
    simp only [Option.getD_some]
    exact loop_scanMembers_cur _ _ _ _ _ _ (by simp [znameA, zgE])
      (by simp [locA, zgE])
  · simp only [List.cons_append, List.nil_append]
    rw [loop_memberAttrs_loc _ _ _ _ _ _ _ _ _ _ (by simp [truthy]) hloc,
      loop_memberAttrs_zname _ _ _ _ _ _ _ _ _ (by simp [truthy]),
      loop_memberAttrs_uuid _ _ _ _ _ _ _ _ _ (by simp [truthy]),
      loop_memberAttrs_done _ _ _ _ _ _ _ _ hall (by simp [uuidA, zgE])]
    simp only [Option.getD_some]
    exact loop_scanMembers_cur _ _ _ _ _ _ (by simp [uuidA, zgE])
      (by simp [locA, zgE])

theorem member_attr_order_irrelevant_witness :
    query_zone_group_topology (zgS :: coordA "u9".toList :: zgmS ::
      ([locA (MemberDoc.location ⟨"u9".toList, "Den".toList, "10.0.0.9".toList,
          "1400/x".toList⟩),
        uuidA "u9".toList, znameA "Den".toList] ++ [zgE])) =
      query_zone_group_topology (zgS :: coordA "u9".toList :: zgmS ::
        (serMemberAttrs ⟨"u9".toList, "Den".toList, "10.0.0.9".toList,
          "1400/x".toList⟩ ++ [zgE])) :=
  member_attr_order_irrelevant
    ⟨"u9".toList, "Den".toList, "10.0.0.9".toList, "1400/x".toList⟩
    (by decide) _ (by decide) "u9".toList [zgE]

/-! ## Stream exhaustion and truncated groups (claim C2) -/

theorem loop_seekCoord_found_nil (c : Str) (acc : List ZGroup) :
    loop (coordA c) [] .seekCoord acc = .error .truncated := by
  rw [loop]
  simp [stabilize, stabSC_coordA]

theorem loop_memberAttrs_done_exit (ts : List Tok) (c : Str)
    (ps : List (Str × Player)) (u n i : Option Str) (acc : List ZGroup)
    (h : (truthy u && truthy n && truthy i) = true) :
    loop zgE ts (.memberAttrs c ps u n i) acc =
      loop zgE ts .seekGroup
        (acc ++ [⟨c, dictInsert ps (u.getD []) ⟨u.getD [], n.getD [], i.getD []⟩⟩]) := by
  have hz : zgE ≠ zgS := by decide
  cases ts with
  | nil =>
    rw [loop, loop]
    simp [stabilize, stabMA, h, stabSM, stabSG, if_neg hz]
  | cons t ts' =>
    rw [loop, loop]
    simp [stabilize, stabMA, h, stabSM, stabSG, if_neg hz]

theorem stabSC_cases (cur : Tok) :
    stabSC cur = .seekCoord ∨ ∃ v, cur = coordA v := by
  cases cur with
  | attr ans anm v =>
    by_cases h : ans = [] ∧ anm = "Coordinator".toList
    · right
      exact ⟨v, by rw [coordA, h.1, h.2]⟩
    · left
      show (if ans = [] ∧ anm = "Coordinator".toList then PState.scanMembers v []
        else PState.seekCoord) = PState.seekCoord
      rw [if_neg h]
  | startTag ns nm => left; rfl
  | endTag ns nm => left; rfl
  | text v => left; rfl

theorem closedF_weaken (cur t : Tok) (ts' : List Tok)
    (h : zgE ∈ t :: ts' ∧ Closed (t :: ts')) :
    zgE ∈ cur :: t :: ts' ∧ Closed (cur :: t :: ts') :=
  ⟨List.mem_cons_of_mem _ h.1, ⟨fun _ => h.1, h.2⟩⟩

theorem loop_ok_closed_nil :
    (∀ (cur : Tok) (acc : List ZGroup) (r : List ZGroup),
      loop cur [] .seekGroup acc = .ok r → Closed [cur]) ∧
    (∀ (cur : Tok) (acc : List ZGroup) (r : List ZGroup),
      loop cur [] .seekCoord acc = .ok r → zgE ∈ [cur] ∧ Closed [cur]) ∧
    (∀ (cur : Tok) (c : Str) (ps : List (Str × Player)) (acc : List ZGroup)
      (r : List ZGroup), loop cur [] (.scanMembers c ps) acc = .ok r →
      zgE ∈ [cur] ∧ Closed [cur]) ∧
    (∀ (cur : Tok) (c : Str) (ps : List (Str × Player)) (u n i : Option Str)
      (acc : List ZGroup) (r : List ZGroup),
      loop cur [] (.memberAttrs c ps u n i) acc = .ok r →
      zgE ∈ [cur] ∧ Closed [cur]) := by
  have hz : zgE ≠ zgS := by decide
  refine ⟨?_, ?_, ?_, ?_⟩
  · intro cur acc r hok
    by_cases hc : cur = zgS
    · subst hc
      rw [loop_seekGroup_found_nil] at hok
      cases hok
    · exact ⟨fun h => absurd h hc, trivial⟩
  · intro cur acc r hok
    rcases stabSC_cases cur with hsc | ⟨v, rfl⟩
    · rw [loop_seekCoord_nil cur acc hsc] at hok
      cases hok
    · rw [loop_seekCoord_found_nil] at hok
      cases hok
  · intro cur c ps acc r hok
    by_cases hc : cur = zgE
    · subst hc
      exact ⟨List.mem_cons_self _ _, ⟨fun h => absurd h hz, trivial⟩⟩
    · rw [loop_scanMembers_nil cur c ps acc hc] at hok
      cases hok
  · intro cur c ps u n i acc r hok
    cases hT : (truthy u && truthy n && truthy i) with
    | true =>
      by_cases hc : cur = zgE
      · subst hc
        exact ⟨List.mem_cons_self _ _, ⟨fun h => absurd h hz, trivial⟩⟩
      · rw [loop_memberAttrs_done cur [] c ps u n i acc hT hc,
          loop_scanMembers_nil cur _ _ acc hc] at hok
        cases hok
    | false =>
      rw [loop_memberAttrs_nil cur c ps u n i acc hT] at hok
      cases hok

theorem loop_ok_closed (n : Nat) : ∀ ts : List Tok, ts.length ≤ n →
    (∀ (cur : Tok) (acc : List ZGroup) (r : List ZGroup),
      loop cur ts .seekGroup acc = .ok r → Closed (cur :: ts)) ∧
    (∀ (cur : Tok) (acc : List ZGroup) (r : List ZGroup),
      loop cur ts .seekCoord acc = .ok r → zgE ∈ cur :: ts ∧ Closed (cur :: ts)) ∧
    (∀ (cur : Tok) (c : Str) (ps : List (Str × Player)) (acc : List ZGroup)
      (r : List ZGroup), loop cur ts (.scanMembers c ps) acc = .ok r →
      zgE ∈ cur :: ts ∧ Closed (cur :: ts)) ∧
    (∀ (cur : Tok) (c : Str) (ps : List (Str × Player)) (u n i : Option Str)
      (acc : List ZGroup) (r : List ZGroup),
      loop cur ts (.memberAttrs c ps u n i) acc = .ok r →
      zgE ∈ cur :: ts ∧ Closed (cur :: ts)) := by
  induction n with
  | zero =>
    intro ts hlen
    have : ts = [] := List.length_eq_zero.mp (Nat.le_zero.mp hlen)
    subst this
    exact loop_ok_closed_nil
  | succ n ihn =>
    intro ts hlen
    cases ts with
    | nil => exact loop_ok_closed_nil
    | cons t ts' =>
      have hlen' : ts'.length ≤ n := by
        simp only [List.length_cons] at hlen
        omega
      obtain ⟨ih1, ih2, ih3, ih4⟩ := ihn ts' hlen'
      have h1 : ∀ (cur : Tok) (acc r : List ZGroup),
          loop cur (t :: ts') .seekGroup acc = .ok r →
          Closed (cur :: t :: ts') := by
        intro cur acc r hok
        by_cases hc : cur = zgS
        · subst hc
          rw [loop_seekGroup_found] at hok
          have h := ih2 t acc r hok
          exact ⟨fun _ => h.1, h.2⟩
        · rw [loop_seekGroup_skip _ _ _ _ hc] at hok
          exact ⟨fun h => absurd h hc, ih1 t acc r hok⟩
      have h3 : ∀ (cur : Tok) (c : Str) (ps : List (Str × Player))
          (acc r : List ZGroup),
          loop cur (t :: ts') (.scanMembers c ps) acc = .ok r →
          zgE ∈ cur :: t :: ts' ∧ Closed (cur :: t :: ts') := by
        intro cur c ps acc r hok
        by_cases hc : cur = zgE
        · subst hc
          rw [loop_scanMembers_exit] at hok
          exact ⟨List.mem_cons_self _ _, h1 zgE _ r hok⟩
        · by_cases ht : t = zgmS
          · subst ht
            rw [loop_scanMembers_member _ _ _ _ _ hc] at hok
            exact closedF_weaken cur _ _ (ih4 zgmS c ps none none none acc r hok)
          · rw [loop_scanMembers_other _ _ _ _ _ _ hc ht] at hok
            exact closedF_weaken cur _ _ (ih3 t c ps acc r hok)
      have h2 : ∀ (cur : Tok) (acc r : List ZGroup),
          loop cur (t :: ts') .seekCoord acc = .ok r →
          zgE ∈ cur :: t :: ts' ∧ Closed (cur :: t :: ts') := by
        intro cur acc r hok
        rcases stabSC_cases cur with hsc | ⟨v, rfl⟩
        · rw [loop_seekCoord_skip _ _ _ _ hsc] at hok
          exact closedF_weaken cur _ _ (ih2 t acc r hok)
        · by_cases ht : t = zgmS
          · subst ht
            rw [loop_seekCoord_found_member] at hok
            exact closedF_weaken _ _ _ (ih4 zgmS v [] none none none acc r hok)
          · rw [loop_seekCoord_found_other _ _ _ _ ht] at hok
            exact closedF_weaken _ _ _ (ih3 t v [] acc r hok)
      have h4 : ∀ (cur : Tok) (c : Str) (ps : List (Str × Player))
          (u n i : Option Str) (acc r : List ZGroup),
          loop cur (t :: ts') (.memberAttrs c ps u n i) acc = .ok r →
          zgE ∈ cur :: t :: ts' ∧ Closed (cur :: t :: ts') := by
        intro cur c ps u n i acc r hok
        cases hT : (truthy u && truthy n && truthy i) with
        | true =>
          by_cases hc : cur = zgE
          · subst hc
            rw [loop_memberAttrs_done_exit _ _ _ _ _ _ _ hT] at hok
            exact ⟨List.mem_cons_self _ _, h1 zgE _ r hok⟩
          · rw [loop_memberAttrs_done _ _ _ _ _ _ _ _ hT hc] at hok
            exact h3 cur _ _ acc r hok
        | false =>
          cases t with
          | attr ans anm v =>
            rw [loop] at hok
            simp only [stabilize, stabMA, hT, Bool.false_eq_true, if_false]
              at hok
            by_cases hn1 : ans = [] ∧ anm = "UUID".toList
            · rw [if_pos hn1] at hok
              exact closedF_weaken _ _ _
                (ih4 (.attr ans anm v) c ps (some v) n i acc r hok)
            · rw [if_neg hn1] at hok
              by_cases hn2 : ans = [] ∧ anm = "ZoneName".toList
              · rw [if_pos hn2] at hok
                exact closedF_weaken _ _ _
                  (ih4 (.attr ans anm v) c ps u (some v) i acc r hok)
              · rw [if_neg hn2] at hok
                by_cases hn3 : ans = [] ∧ anm = "Location".toList
                · rw [if_pos hn3] at hok
                  cases hloc : _zone_group_topology_location_to_ip v with
                  | ok w =>
                    rw [hloc] at hok
                    exact closedF_weaken _ _ _
                      (ih4 (.attr ans anm v) c ps u n (some w) acc r hok)
                  | error e =>
                    rw [hloc] at hok
                    cases hok
                · rw [if_neg hn3] at hok
                  exact closedF_weaken _ _ _
                    (ih4 (.attr ans anm v) c ps u n i acc r hok)
          | startTag ns nm =>
            rw [loop] at hok
            simp only [stabilize, stabMA, hT, Bool.false_eq_true, if_false]
              at hok
            exact closedF_weaken _ _ _
              (ih4 (.startTag ns nm) c ps u n i acc r hok)
          | endTag ns nm =>
            rw [loop] at hok
            simp only [stabilize, stabMA, hT, Bool.false_eq_true, if_false]
              at hok
            exact closedF_weaken _ _ _
              (ih4 (.endTag ns nm) c ps u n i acc r hok)
          | text w =>
            rw [loop] at hok
            simp only [stabilize, stabMA, hT, Bool.false_eq_true, if_false]
              at hok
            exact closedF_weaken _ _ _ (ih4 (.text w) c ps u n i acc r hok)
      exact ⟨h1, h2, h3, h4⟩

theorem closed_append_split (a : List Tok) :
    ∀ b : List Tok, Closed (a ++ zgS :: b) → zgE ∈ b := by
  induction a with
  | nil =>
    intro b h
    exact h.1 rfl
  | cons x a' ih =>
    intro b h
    exact ih b h.2

/-- Claim C2: exhausting the token stream while scanning for the next
`ZoneGroup` start-tag is the normal successful termination — a non-empty
document containing no `ZoneGroup` start-tag parses to the empty group
list — whereas a document truncated mid-group (it contains a `ZoneGroup`
start-tag with no `ZoneGroup` end-tag anywhere after it) always fails
with a `MalformedTopology` error, so no partially-built group is ever
returned. -/
theorem topology_exhaustion_vs_truncation :
    (∀ (t : Tok) (ts : List Tok), zgS ∉ t :: ts →
      query_zone_group_topology (t :: ts) = .ok []) ∧
    (∀ (ts a b : List Tok), ts = a ++ zgS :: b → zgE ∉ b →
      ∃ e, query_zone_group_topology ts = .error e) := by
  constructor
  · intro t ts hmem
    show loop t ts .seekGroup [] = .ok []
    simp only [List.mem_cons, not_or] at hmem
    exact loop_seekGroup_no_group ts t [] (Ne.symm hmem.1) hmem.2
  · intro ts a b heq hne
    cases hq : query_zone_group_topology ts with
    | error e => exact ⟨e, rfl⟩
    | ok r =>
      exfalso
      cases ts with
      | nil => simp at heq
      | cons t ts' =>
        have hok : loop t ts' .seekGroup [] = .ok r := hq
        have hclosed : Closed (t :: ts') :=
          ((loop_ok_closed ts'.length ts' le_rfl).1) t [] r hok
        rw [heq] at hclosed
        exact hne (closed_append_split a b hclosed)

theorem topology_exhaustion_vs_truncation_witness :
    (zgS ∉ [Tok.startTag [] "ZoneGroups".toList] ∧
      query_zone_group_topology [Tok.startTag [] "ZoneGroups".toList] =
        .ok []) ∧
    ∃ e, query_zone_group_topology [zgS, coordA "c".toList, zgmS] =
      .error e := by
  have hm : zgS ∉ [Tok.startTag [] "ZoneGroups".toList] := by decide
  refine ⟨⟨hm, topology_exhaustion_vs_truncation.1 _ _ hm⟩, ?_⟩
  exact topology_exhaustion_vs_truncation.2 [zgS, coordA "c".toList, zgmS]
    [] [coordA "c".toList, zgmS] rfl (by decide)
